/-
Verification of the LAME core spec against the source of
src/libmp3lame/{psymodel.c, quantize.c, lame.c}.

The development is a shallow embedding: C floating-point values are
modelled as exact rationals (ℚ) wherever the code only adds, multiplies,
divides and compares them, and as reals (ℝ) where the code calls sqrt.
Transcendental library calls (pow / FAST_LOG10_X) and the few process-wide
constants computed with them at init time (ma_max_i1, ma_max_i2, ma_max_m,
rpelev, NS_PREECHO_ATT2, ...) are passed as parameters, so the theorems
quantify over their actual values.  Machine ints are ℤ (none of the
embedded code overflows 32 bits on the inputs considered).

Layout: all definitions first, then all theorems.
-/
import Mathlib

namespace Lame

/-! # Definitions -/

/-! ## psymodel.c: the masking table `tab` (psymodel.c:360-370) -/

/-- The tonality table `tab[0..8]` of psymodel.c.  Indices outside 0..8 are
never used by the source (mask indices are clamped to 8); they are mapped
to 0 here. -/
def tab (i : ℕ) : ℚ :=
  match i with
  | 0 => 1
  | 1 => 0.79433
  | 2 => 0.63096
  | 3 => 0.63096
  | 4 => 0.63096
  | 5 => 0.63096
  | 6 => 0.63096
  | 7 => 0.25119
  | 8 => 0.11749
  | _ => 0

/-! ## psymodel.c: mask_add and vbrpsy_mask_add (psymodel.c:388-541)

The statics `ma_max_i1`, `ma_max_i2`, `ma_max_m` are computed by
`init_mask_add_max_values` (psymodel.c:375-381) with `pow`, and
`FAST_LOG10_X` uses the fast-log table of util.h (not in src/); they are
irrational, hence carried as parameters of the embedding. -/

/-- Parameters of the additive-masking combinators: the process-wide
constants set by `init_mask_add_max_values` and the truncated fast
logarithm `(int)(FAST_LOG10_X(ratio, 16.0))`. -/
structure MaskAddConsts where
  maMaxI1 : ℚ
  maMaxI2 : ℚ
  maMaxM : ℚ
  lg16 : ℚ → ℕ

/-- The interpolation table `table2` shared by `mask_add` and
`vbrpsy_mask_add`; out-of-range indices are mapped to the final entry 1,
which the source never reads. -/
def table2 (i : ℕ) : ℚ :=
  match i with
  | 0 => 1.33352 * 1.33352
  | 1 => 1.35879 * 1.35879
  | 2 => 1.38454 * 1.38454
  | 3 => 1.39497 * 1.39497
  | 4 => 1.40548 * 1.40548
  | 5 => 1.3537 * 1.3537
  | 6 => 1.30382 * 1.30382
  | 7 => 1.22321 * 1.22321
  | 8 => 1.14758 * 1.14758
  | _ => 1

/-- Body of `vbrpsy_mask_add` after the two initial negative-to-zero
clamps (psymodel.c:512-541). -/
def vbrpsy_mask_add_core (c : MaskAddConsts) (m1 m2 : ℚ) (b : ℤ) : ℚ :=
  if m1 ≤ 0 then m2
  else if m2 ≤ 0 then m1
  else
    let ratio := if m2 > m1 then m2 / m1 else m1 / m2
    if -2 ≤ b ∧ b ≤ 2 then
      if ratio ≥ c.maMaxI1 then m1 + m2
      else (m1 + m2) * table2 (c.lg16 ratio)
    else
      if ratio < c.maMaxI2 then m1 + m2
      else if m1 < m2 then m2 else m1

/-- Embedding of `vbrpsy_mask_add(m1, m2, b)` (psymodel.c:493-541):
addition of simultaneous masking for the VBR analyzer.  The two leading
`if (mi < 0) mi = 0;` clamps of the source precede the core. -/
def vbrpsy_mask_add (c : MaskAddConsts) (m1 m2 : ℚ) (b : ℤ) : ℚ :=
  vbrpsy_mask_add_core c (if m1 < 0 then 0 else m1) (if m2 < 0 then 0 else m2) b

/-- The table `table1` of `mask_add` (psymodel.c:391-401); out-of-range
indices map to the final entry 1. -/
def table1 (i : ℕ) : ℚ :=
  match i with
  | 0 => 3.3246 * 3.3246
  | 1 => 3.23837 * 3.23837
  | 2 => 3.15437 * 3.15437
  | 3 => 3.00412 * 3.00412
  | 4 => 2.86103 * 2.86103
  | 5 => 2.65407 * 2.65407
  | 6 => 2.46209 * 2.46209
  | 7 => 2.284 * 2.284
  | 8 => 2.11879 * 2.11879
  | 9 => 1.96552 * 1.96552
  | 10 => 1.82335 * 1.82335
  | 11 => 1.69146 * 1.69146
  | 12 => 1.56911 * 1.56911
  | 13 => 1.46658 * 1.46658
  | 14 => 1.37074 * 1.37074
  | 15 => 1.31036 * 1.31036
  | 16 => 1.25264 * 1.25264
  | 17 => 1.20648 * 1.20648
  | 18 => 1.16203 * 1.16203
  | 19 => 1.12765 * 1.12765
  | 20 => 1.09428 * 1.09428
  | 21 => 1.0659 * 1.0659
  | 22 => 1.03826 * 1.03826
  | 23 => 1.01895 * 1.01895
  | _ => 1

/-- The table `table3` of `mask_add` (psymodel.c:409-414); out-of-range
indices map to 1 (the source guards accesses with `i <= 13`). -/
def table3 (i : ℕ) : ℚ :=
  match i with
  | 0 => 2.35364 * 2.35364
  | 1 => 2.29259 * 2.29259
  | 2 => 2.23313 * 2.23313
  | 3 => 2.12675 * 2.12675
  | 4 => 2.02545 * 2.02545
  | 5 => 1.87894 * 1.87894
  | 6 => 1.74303 * 1.74303
  | 7 => 1.61695 * 1.61695
  | 8 => 1.49999 * 1.49999
  | 9 => 1.39148 * 1.39148
  | 10 => 1.29083 * 1.29083
  | 11 => 1.19746 * 1.19746
  | 12 => 1.11084 * 1.11084
  | 13 => 1.03826 * 1.03826
  | _ => 1

/-- ATH-related inputs of `mask_add`: the per-partition absolute
thresholds `gfc->ATH->cb_l` / `cb_s` and `gfc->ATH->adjust_factor`
(computed outside src/ with `pow`, hence parameters), and the second fast
logarithm `FAST_LOG10_X(m1/m2, 10.0/15.0)`. -/
structure NsAthEnv where
  cbL : ℕ → ℚ
  cbS : ℕ → ℚ
  adjustFactor : ℚ
  lgr : ℚ → ℚ

/-- Tail of `mask_add` once a finite ratio has been formed
(psymodel.c:437-492); `ratio` is max(m1,m2)/min(m1,m2) and the source has
already executed `m1 += m2`. -/
def mask_add_body (e : NsAthEnv) (c : MaskAddConsts) (m1 m2 ratio : ℚ)
    (kk : ℕ) (b : ℤ) (shortblock : Bool) : ℚ :=
  let m := m1 + m2
  if 0 ≤ b + 3 ∧ b + 3 ≤ 6 then
    if ratio ≥ c.maMaxI1 then m
    else m * table2 (c.lg16 ratio)
  else
    let i := c.lg16 ratio
    let ath := (if shortblock then e.cbS kk else e.cbL kk) * e.adjustFactor
    if m < c.maMaxM * ath then
      if m > ath then
        let f := if i ≤ 13 then table3 i else 1
        let r := e.lgr (m / ath)
        m * ((table1 i - f) * r + f)
      else
        if 13 < i then m
        else m * table3 i
    else m * table1 i

/-- Embedding of `mask_add(m1, m2, kk, b, gfc, shortblock)`
(psymodel.c:388-492), the additive-masking combinator of
`L3psycho_anal_ns`.  The test `(unsigned int)(b + 3) <= 3 + 3` is the
C idiom for `-3 <= b && b <= 3`. -/
def mask_add (e : NsAthEnv) (c : MaskAddConsts) (m1 m2 : ℚ)
    (kk : ℕ) (b : ℤ) (shortblock : Bool) : ℚ :=
  if m2 > m1 then
    if m2 < m1 * c.maMaxI2 then mask_add_body e c m1 m2 (m2 / m1) kk b shortblock
    else m1 + m2
  else
    if m1 ≥ m2 * c.maMaxI2 then m1 + m2
    else mask_add_body e c m1 m2 (m1 / m2) kk b shortblock

/-! ## psymodel.c: spreading convolutions and long-block thresholds

A partition row is the slice of the spreading function feeding band `b`:
a list of triples (s3 weight, partition energy eb, mask index) for
`kk = s3ind[b][0] .. s3ind[b][1]`. -/

/-- While-loop of the `L3psycho_anal_ns` convolution
(psymodel.c:1380-1383): `ecb = mask_add(ecb, s3[k]*eb_l[kk]*tab[idx], kk,
kk-b, gfc, 0)` for the remaining columns. -/
def ns_convolve_go (e : NsAthEnv) (c : MaskAddConsts) (b : ℤ) :
    ℕ → ℚ → List (ℚ × ℚ × ℕ) → ℚ
  | _, ecb, [] => ecb
  | kk, ecb, (s3v, ebv, idx) :: rest =>
      ns_convolve_go e c b (kk + 1)
        (mask_add e c ecb (s3v * (ebv * tab idx)) kk ((kk : ℤ) - b) false) rest

/-- The full `L3psycho_anal_ns` convolution for band `b`
(psymodel.c:1376-1383), starting at column `kk0`.  The source never calls
it on an empty row (`s3ind[b][0] <= s3ind[b][1]`); the empty row maps
to 0. -/
def ns_convolve (e : NsAthEnv) (c : MaskAddConsts) (b : ℤ) (kk0 : ℕ) :
    List (ℚ × ℚ × ℕ) → ℚ
  | [] => 0
  | (s3v, ebv, idx) :: rest => ns_convolve_go e c b (kk0 + 1) (s3v * (ebv * tab idx)) rest

/-- Embedding of `NS_INTERP(x, y, r)` (psymodel.c:869-880); `pow` is the
parameter `powf`. -/
def NS_INTERP (powf : ℚ → ℚ → ℚ) (x y r : ℚ) : ℚ :=
  if r ≥ 1 then x
  else if r ≤ 0 then y
  else if y > 0 then powf (x / y) r * y
  else 0

/-- Long-block threshold of one partition band in `L3psycho_anal_ns`
(psymodel.c:1371-1414): the spread energy times `pow(10,-0.8)`, then the
pre-echo limit — but no clamp against the band energy.  `prevShort` is
`blocktype_old[chn&1] == SHORT_TYPE`; `rpelev`/`rpelev2`/`pcfact` are the
psymodel.h constants and the reservoir factor; `nb1`/`nb2` the persistent
maskings of the previous two granules. -/
def L3psycho_anal_ns_thr_l (e : NsAthEnv) (c : MaskAddConsts) (powf : ℚ → ℚ → ℚ)
    (prevShort : Bool) (rpelev rpelev2 pcfact nb1 nb2 : ℚ)
    (b : ℤ) (kk0 : ℕ) (row : List (ℚ × ℚ × ℕ)) : ℚ :=
  let ecb := ns_convolve e c b kk0 row * 0.158489319246111
  if prevShort then ecb
  else NS_INTERP powf (min ecb (min (rpelev * nb1) (rpelev2 * nb2))) ecb pcfact

/-- While-loop of the `vbrpsy_compute_masking_l` convolution
(psymodel.c:1986-1999): `ecb = vbrpsy_mask_add(ecb, s3[k]*eb_l[kk]*tab[idx],
kk-b)` for the remaining columns. -/
def vbr_convolve_go (c : MaskAddConsts) (b : ℤ) :
    ℕ → ℚ → List (ℚ × ℚ × ℕ) → ℚ
  | _, ecb, [] => ecb
  | kk, ecb, (s3v, ebv, idx) :: rest =>
      vbr_convolve_go c b (kk + 1)
        (vbrpsy_mask_add c ecb (s3v * ebv * tab idx) ((kk : ℤ) - b)) rest

/-- The averaged mask index `dd = (1 + 2*dd) / (2*dd_n)` of
`vbrpsy_compute_masking_l` (psymodel.c:2000), from the row's mask
indices (C integer division). -/
def vbr_dd (row : List (ℚ × ℚ × ℕ)) : ℕ :=
  (1 + 2 * (row.map (fun t => t.2.2)).sum) / (2 * row.length)

/-- `avg_mask = tab[dd] * 0.5` (psymodel.c:2001). -/
def vbr_avg_mask (row : List (ℚ × ℚ × ℕ)) : ℚ :=
  tab (vbr_dd row) * 0.5

/-- Spread energy `ecb` of one band in `vbrpsy_compute_masking_l`
(psymodel.c:1980-2002), including the final `ecb *= avg_mask`. -/
def vbr_ecb_l (c : MaskAddConsts) (b : ℤ) (kk0 : ℕ) (row : List (ℚ × ℚ × ℕ)) : ℚ :=
  (match row with
   | [] => 0
   | (s3v, ebv, idx) :: rest => vbr_convolve_go c b (kk0 + 1) (s3v * ebv * tab idx) rest)
    * vbr_avg_mask row

/-- Block type (encoder.h NORM_TYPE / START_TYPE / SHORT_TYPE /
STOP_TYPE), as a sum type. -/
inductive BlockType where
  | NORM
  | START
  | SHORT
  | STOP
  deriving DecidableEq, Repr

/-- Final limiting of a partition threshold in `vbrpsy_compute_masking_s`
and `vbrpsy_compute_masking_l` (psymodel.c:2055-2077): the tonal limit
`x = max[b]*minval[b]*avg_mask`, the masking_lower scaling, and the clamp
of thr to the band energy eb. -/
def vbrpsy_thr_clamp (thr x ebb maskingLower : ℚ) : ℚ :=
  let thr := if thr > x then x else thr
  let thr := if maskingLower > 1 then thr * maskingLower else thr
  let thr := if thr > ebb then ebb else thr
  if maskingLower < 1 then thr * maskingLower else thr

/-- Threshold of one long partition band in `vbrpsy_compute_masking_l`
(psymodel.c:2004-2082): spread energy, pre-echo limiting against the
previous two granules (`old` is `blocktype_old[chn&1]`), then the final
limiting of `vbrpsy_thr_clamp` against the band energy `ebb = eb_l[b]`.
`attTwo` is NS_PREECHO_ATT2. -/
def vbrpsy_compute_masking_l_band (c : MaskAddConsts) (old : BlockType)
    (rpelev rpelev2 attTwo : ℚ) (nb1 nb2 : ℚ) (maxb minval maskingLower : ℚ)
    (b : ℤ) (kk0 : ℕ) (row : List (ℚ × ℚ × ℕ)) (ebb : ℚ) : ℚ :=
  let ecb := vbr_ecb_l c b kk0 row
  let thr :=
    if old = BlockType.SHORT then
      let lim := rpelev * nb1
      if lim > 0 then min ecb lim else min ecb (ebb * attTwo)
    else
      let l2 := rpelev2 * nb2
      let l2 := if l2 ≤ 0 then ecb else l2
      let l1 := rpelev * nb1
      let l1 := if l1 ≤ 0 then ecb else l1
      let lim := if old = BlockType.NORM then min l1 l2 else l1
      min ecb lim
  vbrpsy_thr_clamp thr (maxb * minval * vbr_avg_mask row) ebb maskingLower

/-- Concrete mask-add constants used to evaluate the `L3psycho_anal_ns`
threshold on one explicit input.  The input below only exercises the
`m1 >= m2 * ma_max_i2` branch of `mask_add` (the second masker is 0), so
any values give the same result; these are rational stand-ins for
10^(9/16), 10^(24/16), 10^1.5 and the fast logs. -/
def exMaskConsts : MaskAddConsts where
  maMaxI1 := 3.65
  maMaxI2 := 31.62
  maMaxM := 31.62
  lg16 := fun _ => 0

/-- Concrete ATH environment for the same evaluation (never reached by
the chosen input). -/
def exAthEnv : NsAthEnv where
  cbL := fun _ => 0
  cbS := fun _ => 0
  adjustFactor := 1
  lgr := fun _ => 0

/-! ## psymodel.c: block-type state machine (psymodel.c:822-865, 2109-2139) -/

/-- The `short_blocks` session setting (lame.h / enum in the config). -/
inductive ShortBlocks where
  | allowed
  | coupled
  | dispensed
  | forced
  deriving DecidableEq, Repr

/-- One per-channel step of `vbrpsy_apply_block_type`
(psymodel.c:2114-2137); the identical per-channel body also ends
`block_type_set` (psymodel.c:839-864).  Takes the stored
`blocktype_old` and this granule's long/short decision; returns
(emitted block type of the previous granule, new `blocktype_old`). -/
def vbrpsy_apply_block_type_step (old : BlockType) (uselong : Bool) :
    BlockType × BlockType :=
  if uselong then
    (old, if old = BlockType.SHORT then BlockType.STOP else BlockType.NORM)
  else
    let old := if old = BlockType.NORM then BlockType.START
               else if old = BlockType.STOP then BlockType.SHORT else old
    (old, BlockType.SHORT)

/-- The emitted block-type sequence of one channel across granules:
`blocktype_old` starts as the given state and one step is taken per
granule. -/
def blockTypeTrace (old : BlockType) : List Bool → List BlockType
  | [] => []
  | u :: us =>
      (vbrpsy_apply_block_type_step old u).1 ::
        blockTypeTrace (vbrpsy_apply_block_type_step old u).2 us

/-- The decision rewriting done by `block_type_set`
(psymodel.c:827-846) before the per-channel automaton: the coupled-OR of
the two channels, then `short_block_dispensed` forcing long and
`short_block_forced` forcing short. -/
def block_type_eff (sb : ShortBlocks) (u : Bool × Bool) : Bool × Bool :=
  let p := if sb = ShortBlocks.coupled ∧ ¬(u.1 ∧ u.2) then (false, false) else u
  (if sb = ShortBlocks.dispensed then true
     else if sb = ShortBlocks.forced then false else p.1,
   if sb = ShortBlocks.dispensed then true
     else if sb = ShortBlocks.forced then false else p.2)

/-- The two-channel emitted trace of `block_type_set`
(psymodel.c:822-865), one pair of raw decisions per granule. -/
def block_type_set_trace (sb : ShortBlocks) (old0 old1 : BlockType) :
    List (Bool × Bool) → List (BlockType × BlockType)
  | [] => []
  | u :: us =>
      let e := block_type_eff sb u
      ((vbrpsy_apply_block_type_step old0 e.1).1,
       (vbrpsy_apply_block_type_step old1 e.2).1) ::
        block_type_set_trace sb (vbrpsy_apply_block_type_step old0 e.1).2
          (vbrpsy_apply_block_type_step old1 e.2).2 us

/-- Legality of two adjacent emitted block types: a SHORT granule is
followed only by SHORT or STOP and preceded only by SHORT or START (in
particular SHORT is never adjacent to NORM). -/
def blockPairOK (a b : BlockType) : Prop :=
  (a = BlockType.SHORT → b = BlockType.SHORT ∨ b = BlockType.STOP) ∧
  (b = BlockType.SHORT → a = BlockType.SHORT ∨ a = BlockType.START)

instance (a b : BlockType) : Decidable (blockPairOK a b) := by
  unfold blockPairOK
  infer_instance

/-! ## quantize.c: bit counting, inner_loop, bin_search_StepSize
(quantize.c:128-234), and the global-gain flow of outer_loop
(quantize.c:803-996) -/

/-- Modelled from the spec: the quantizer inside `count_bits`
(quantize_pvt.c, not in src/).  Per spec §4.F.2 and the glossary the
global gain is "the shared 8-bit exponent applied to one granule's
coefficients before nonuniform quantization": coefficient x is quantized
to ⌊x / 2^gain⌋ (taken as 0 when negative). -/
def quantIx (x : ℚ) (gain : ℤ) : ℕ :=
  (Int.floor (x / 2 ^ gain)).toNat

/-- Modelled from the spec: `count_bits` (quantize_pvt.c, not in src/).
The Huffman bit count of the quantized spectrum is modelled as the total
binary size of the quantized magnitudes; it vanishes once the gain is
large enough, which is the property the loop structure of quantize.c
relies on. -/
def count_bits (xs : List ℚ) (gain : ℤ) : ℕ :=
  (xs.map (fun x => (quantIx x gain).size)).sum

/-- A gain beyond which every coefficient of the spectrum quantizes
to 0. -/
def gainBound (xs : List ℚ) : ℤ :=
  (xs.map (fun x => ((x.num.toNat.size : ℕ) : ℤ))).foldr max 0

/-- The loop of `inner_loop` (quantize.c:219-231): count bits, and while
the count exceeds max_bits increase global_gain and recount.  The fuel
only bounds the recursion depth; `inner_loop` always supplies enough fuel
for the loop to run to its genuine exit (see
`inner_loop_go_fits`). -/
def inner_loop_go (xrpow : List ℚ) (maxBits : ℕ) : ℕ → ℤ → ℤ × ℕ
  | 0, gain => (gain, count_bits xrpow gain)
  | fuel + 1, gain =>
      let bits := count_bits xrpow gain
      if bits ≤ maxBits then (gain, bits)
      else inner_loop_go xrpow maxBits fuel (gain + 1)

/-- Embedding of `inner_loop(gfc, cod_info, max_bits, xrpow, l3enc)`
(quantize.c:210-234): returns the final (global_gain, bits). -/
def inner_loop (xrpow : List ℚ) (maxBits : ℕ) (gain : ℤ) : ℤ × ℕ :=
  inner_loop_go xrpow maxBits ((gainBound xrpow - gain).toNat + 1) gain

/-- The direction enum of `bin_search_StepSize` (quantize.c:134-138). -/
inductive BinsearchDirection where
  | NONE
  | UP
  | DOWN
  deriving DecidableEq, Repr

/-- The do-while loop of `bin_search_StepSize` (quantize.c:159-186),
parameterized by the bit count as a function of the global gain (the
other inputs of count_bits are fixed during the loop).  Each iteration
sets global_gain = StepSize and counts; on fuel exhaustion the loop
reports the current state exactly as a break would (the claims proved
about it hold for every fuel; the concrete runs below break before the
fuel runs out). -/
def bin_search_StepSize_go (bits : ℤ → ℕ) (desired : ℕ) :
    ℕ → ℤ → ℤ → BinsearchDirection → Bool → ℤ × ℕ
  | 0, stepSize, _, _, _ => (stepSize, bits stepSize)
  | fuel + 1, stepSize, curStep, dir, goneOver =>
      let nBits := bits stepSize
      if curStep = 1 then (stepSize, nBits)
      else
        let curStep2 := if goneOver then curStep / 2 else curStep
        if nBits > desired then
          let late := dir = BinsearchDirection.DOWN ∧ goneOver = false
          let goneOver2 := if late then true else goneOver
          let curStep3 := if late then curStep2 / 2 else curStep2
          let stepSize2 := stepSize + curStep3
          if stepSize2 > 255 then (stepSize, nBits)
          else bin_search_StepSize_go bits desired fuel stepSize2 curStep3
                 BinsearchDirection.UP goneOver2
        else if nBits < desired then
          let late := dir = BinsearchDirection.UP ∧ goneOver = false
          let goneOver2 := if late then true else goneOver
          let curStep3 := if late then curStep2 / 2 else curStep2
          let stepSize2 := stepSize - curStep3
          if stepSize2 < 0 then (stepSize, nBits)
          else bin_search_StepSize_go bits desired fuel stepSize2 curStep3
                 BinsearchDirection.DOWN goneOver2
        else (stepSize, nBits)

/-- Embedding of `bin_search_StepSize(gfc, cod_info, desired_rate, start,
xrpow, l3enc)` (quantize.c:141-195): Direction starts at NONE,
flag_GoneOver at 0, StepSize at `start` and CurrentStep at
`gfc->CurrentStep` (2 or 4).  Returns the final (global_gain, nBits). -/
def bin_search_StepSize (bits : ℤ → ℕ) (desired : ℕ) (start curStep : ℤ)
    (fuel : ℕ) : ℤ × ℕ :=
  bin_search_StepSize_go bits desired fuel start curStep
    BinsearchDirection.NONE false

/-- The global-gain flow of `outer_loop` (quantize.c:803-996) for a fresh
granule (part2_length = 0, so huff_bits = targ_bits) in fast mode
(noise_shaping == 0, so the main loop exits after the first iteration,
quantize.c:893-899): `bin_search_StepSize` from the cached start value,
then — when the bit count found exceeds the budget — the
`cod_info->global_gain++` and `inner_loop` of quantize.c:866-871.  The
returned value is the global_gain the assert at quantize.c:993 checks. -/
def outer_loop_gain (xrpow : List ℚ) (oldValue curStep : ℤ) (targBits : ℕ)
    (fuel : ℕ) : ℤ :=
  let r := bin_search_StepSize (count_bits xrpow) targBits oldValue curStep fuel
  if r.2 > targBits then (inner_loop xrpow targBits (r.1 + 1)).1 else r.1

/-! ## quantize.c: init_outer_loop (quantize.c:51-120) and the analog
silence branch of iteration_loop (quantize.c:1789-1797) -/

/-- The xrpow computation of `init_outer_loop` (quantize.c:113-116):
`xrpow[i] = sqrt(fabs(xr[i]) * sqrt(fabs(xr[i])))`. -/
noncomputable def init_outer_loop_xrpow (xr : List ℝ) : List ℝ :=
  xr.map (fun x => Real.sqrt (|x| * Real.sqrt |x|))

/-- The energy counter `o` of `init_outer_loop` (quantize.c:110-116):
the number of coefficients with `fabs(xr[i]) > 1E-20`. -/
def init_outer_loop_o (xr : List ℚ) : ℕ :=
  xr.countP (fun x => decide ((1 : ℚ) / 10 ^ 20 < |x|))

/-- The return value of `init_outer_loop` (quantize.c:119): `o > 0`,
i.e. true iff there is something to quantize. -/
def init_outer_loop_ret (xr : List ℚ) : Bool :=
  decide (0 < init_outer_loop_o xr)

/-- The per-granule branch of `iteration_loop` (quantize.c:1789-1808):
when init_outer_loop returns 0 the 576 quantized coefficients are zeroed
and the granule is skipped, otherwise the quantization (calc_xmin +
outer_loop, abstracted as `encode`) produces them. -/
def iteration_loop_l3enc (encode : List ℚ → List ℤ) (xr : List ℚ) : List ℤ :=
  if init_outer_loop_ret xr then encode xr else List.replicate 576 0

/-! ## quantize.c: inc_subblock_gain (quantize.c:645-703)

`SBPSY_s = 12` and `SBMAX_s = 13` (encoder.h, not in src/; the source
comment "there is no scalefactor for sfb12" fixes them).  The tables
`gfc->scalefac_band.s` and `IPOW20` live outside src/ and are
parameters. -/

/-- The mutable state `inc_subblock_gain` works on: the short
scalefactors `scalefac->s[sfb][window]`, the per-window
`cod_info->subblock_gain`, and the xrpow vector. -/
structure SubblockState where
  scalefacS : ℕ → ℕ → ℤ
  subblockGain : ℕ → ℤ
  xrpow : List ℚ

/-- The running maximum `if (s < sc[sfb][w]) s = sc[sfb][w]` over
`sfb ∈ [lo, hi)`, starting from 0 (quantize.c:656-664). -/
def maxScalefac (st : SubblockState) (window lo hi : ℕ) : ℤ :=
  (List.range' lo (hi - lo)).foldl
    (fun m sfb => if m < st.scalefacS sfb window then st.scalefacS sfb window else m) 0

/-- The scalefactor-reduction loop over `sfb ∈ [sfb_smin, SBMAX_s)` of
`inc_subblock_gain` (quantize.c:680-700): each scalefactor loses
`4 >> scalefac_scale`; when it would go negative it is zeroed and the
xrpow amplification loop `for (l = 0; l < width; l++) xrpow[l] *= amp`
runs (the source computes `width = sband[sfb] - sband[sfb+1]`, and the
index `i` it also computes is never used). -/
def inc_subblock_gain_sfbs (sbandS : ℕ → ℤ) (ipow20 : ℤ → ℚ)
    (sfbSmin scalefacScale : ℕ) (window : ℕ) (st : SubblockState) : SubblockState :=
  (List.range' sfbSmin (13 - sfbSmin)).foldl
    (fun st sfb =>
      let s := st.scalefacS sfb window
      if s < 0 then st
      else
        let s2 := s - (4 / 2 ^ scalefacScale)
        if 0 ≤ s2 then
          { st with scalefacS := fun j w =>
              if j = sfb ∧ w = window then s2 else st.scalefacS j w }
        else
          let width := sbandS sfb - sbandS (sfb + 1)
          let amp := ipow20 (210 + s2 * 2 ^ (scalefacScale + 1))
          { st with
              scalefacS := fun j w =>
                if j = sfb ∧ w = window then 0 else st.scalefacS j w,
              xrpow := st.xrpow.mapIdx (fun l v => if (l : ℤ) < width then v * amp else v) })
    st

/-- One window iteration of `inc_subblock_gain` (quantize.c:651-701):
skip the window when no scalefactor overflows (`s1 < 16 && s2 < 8`),
give up (return 1) when `subblock_gain[window] > 7`, otherwise increment
the gain and reduce the scalefactors.  Returns (gave-up flag, state). -/
def inc_subblock_gain_window (sbandS : ℕ → ℤ) (ipow20 : ℤ → ℚ)
    (sfbSmin scalefacScale : ℕ) (st : SubblockState) (window : ℕ) :
    Bool × SubblockState :=
  let s1 := maxScalefac st window sfbSmin 6
  let s2 := maxScalefac st window 6 12
  if s1 < 16 ∧ s2 < 8 then (false, st)
  else if st.subblockGain window > 7 then (true, st)
  else
    let st := { st with subblockGain := fun w =>
        if w = window then st.subblockGain w + 1 else st.subblockGain w }
    (false, inc_subblock_gain_sfbs sbandS ipow20 sfbSmin scalefacScale window st)

/-- Embedding of `inc_subblock_gain(gfc, cod_info, scalefac, xrpow)`
(quantize.c:645-703): the three windows in order, with the early
`return 1`. -/
def inc_subblock_gain (sbandS : ℕ → ℤ) (ipow20 : ℤ → ℚ)
    (sfbSmin scalefacScale : ℕ) (st : SubblockState) : Bool × SubblockState :=
  match inc_subblock_gain_window sbandS ipow20 sfbSmin scalefacScale st 0 with
  | (true, st) => (true, st)
  | (false, st) =>
    match inc_subblock_gain_window sbandS ipow20 sfbSmin scalefacScale st 1 with
    | (true, st) => (true, st)
    | (false, st) =>
      inc_subblock_gain_window sbandS ipow20 sfbSmin scalefacScale st 2

/-- The failing state for C6: every window's subblock_gain is already 7
(reachable after seven earlier calls on a persistently overflowing
granule) and the window-0 scalefactors still overflow
(`scalefac->s[0][0] = 16`). -/
def sbgFailingState : SubblockState where
  scalefacS := fun sfb w => if sfb = 0 ∧ w = 0 then 16 else 0
  subblockGain := fun _ => 7
  xrpow := []

/-! ## psymodel.c: attack detection (psymodel.c:1240-1292 in
L3psycho_anal_ns, psymodel.c:1693-1748 in vbrpsy_attack_detection)

The four per-granule attack slots `ns_attacks[0..3]` are a 4-tuple; slot
k is fed by the intensities `attack_intensity[3k .. 3k+2]`. -/

/-- Slot access for the attack 4-tuple (indices beyond 3 alias slot 3,
never used). -/
def attackGet (t : ℕ × ℕ × ℕ × ℕ) : ℕ → ℕ
  | 0 => t.1
  | 1 => t.2.1
  | 2 => t.2.2.1
  | _ => t.2.2.2

/-- The marking loop (psymodel.c:1249-1257 and 1699-1707), per slot
`k = i/3`: the slot starts at 0 and the first `i` in its triple whose
intensity exceeds the threshold `x` stores the code `(i % 3) + 1`. -/
def ns_attack_mark (a : ℕ → ℚ) (x : ℚ) (k : ℕ) : ℕ :=
  if a (3 * k) > x then 1
  else if a (3 * k + 1) > x then 2
  else if a (3 * k + 2) > x then 3
  else 0

/-- All four slots after the marking loop. -/
def ns_attack_marks (a : ℕ → ℚ) (x : ℚ) : ℕ × ℕ × ℕ × ℕ :=
  (ns_attack_mark a x 0, ns_attack_mark a x 1, ns_attack_mark a x 2, ns_attack_mark a x 3)

/-- The periodicity ratio of `L3psycho_anal_ns` (psymodel.c:1261-1268):
the larger of the two neighbouring en_short energies over the smaller. -/
def ns_ratio (en : ℕ → ℚ) (i : ℕ) : ℚ :=
  if en (i - 1) > en i then en (i - 1) / en i else en i / en (i - 1)

/-- The periodicity filter of `L3psycho_anal_ns` (psymodel.c:1259-1275):
for i = 1..3, a ratio below 1.7 clears slot i (and slot 0 as well when
i = 1). -/
def ns_periodicity (en : ℕ → ℚ) (t : ℕ × ℕ × ℕ × ℕ) : ℕ × ℕ × ℕ × ℕ :=
  let t := if ns_ratio en 1 < 1.7 then (0, 0, t.2.2.1, t.2.2.2) else t
  let t := if ns_ratio en 2 < 1.7 then (t.1, t.2.1, 0, t.2.2.2) else t
  if ns_ratio en 3 < 1.7 then (t.1, t.2.1, t.2.2.1, 0) else t

/-- The periodicity filter of `vbrpsy_attack_detection`
(psymodel.c:1716-1729): slot i = 1..3 is cleared only when the larger
neighbouring energy is below 40000 AND both energies are within a factor
1.7 of each other; at i = 1 slot 0 is cleared too when its code does not
exceed slot 1's. -/
def vbr_periodicity (en : ℕ → ℚ) (t : ℕ × ℕ × ℕ × ℕ) : ℕ × ℕ × ℕ × ℕ :=
  let t := if max (en 0) (en 1) < 40000 ∧ en 0 < 1.7 * en 1 ∧ en 1 < 1.7 * en 0 then
             (if t.1 ≤ t.2.1 then (0, 0, t.2.2.1, t.2.2.2) else (t.1, 0, t.2.2.1, t.2.2.2))
           else t
  let t := if max (en 1) (en 2) < 40000 ∧ en 1 < 1.7 * en 2 ∧ en 2 < 1.7 * en 1 then
             (t.1, t.2.1, 0, t.2.2.2)
           else t
  if max (en 2) (en 3) < 40000 ∧ en 2 < 1.7 * en 3 ∧ en 3 < 1.7 * en 2 then
    (t.1, t.2.1, t.2.2.1, 0)
  else t

/-- Slot-0 carryover of `L3psycho_anal_ns` (psymodel.c:1277-1278):
`if (ns_attacks[0] && psv->last_attacks[chn]) ns_attacks[0] = 0`. -/
def ns_last_fix (last : ℕ) (t : ℕ × ℕ × ℕ × ℕ) : ℕ × ℕ × ℕ × ℕ :=
  if t.1 ≠ 0 ∧ last ≠ 0 then (0, t.2.1, t.2.2.1, t.2.2.2) else t

/-- Slot-0 carryover of `vbrpsy_attack_detection` (psymodel.c:1731-1733):
`if (ns_attacks[0] <= last_attacks) ns_attacks[0] = 0`. -/
def vbr_last_fix (last : ℕ) (t : ℕ × ℕ × ℕ × ℕ) : ℕ × ℕ × ℕ × ℕ :=
  if t.1 ≤ last then (0, t.2.1, t.2.2.1, t.2.2.2) else t

/-- The block-decision / dedup step shared by both analyzers
(psymodel.c:1280-1291 and 1735-1748): when the previous granule ended in
a position-3 attack or any slot is set, consecutive set slots are
deduplicated. -/
def attack_dedup (last : ℕ) (t : ℕ × ℕ × ℕ × ℕ) : ℕ × ℕ × ℕ × ℕ :=
  if last = 3 ∨ t.1 + t.2.1 + t.2.2.1 + t.2.2.2 ≠ 0 then
    let t := if t.2.1 ≠ 0 ∧ t.1 ≠ 0 then (t.1, 0, t.2.2.1, t.2.2.2) else t
    let t := if t.2.2.1 ≠ 0 ∧ t.2.1 ≠ 0 then (t.1, t.2.1, 0, t.2.2.2) else t
    if t.2.2.2 ≠ 0 ∧ t.2.2.1 ≠ 0 then (t.1, t.2.1, t.2.2.1, 0) else t
  else t

/-- The full ns_attacks pipeline of `L3psycho_anal_ns` for one channel:
marking, periodicity filter, slot-0 carryover, dedup. -/
def L3psycho_anal_ns_attacks (a : ℕ → ℚ) (x : ℚ) (en : ℕ → ℚ) (last : ℕ) :
    ℕ × ℕ × ℕ × ℕ :=
  attack_dedup last (ns_last_fix last (ns_periodicity en (ns_attack_marks a x)))

/-- The full ns_attacks pipeline of `vbrpsy_attack_detection` for one
channel. -/
def vbrpsy_attack_detection_attacks (a : ℕ → ℚ) (x : ℚ) (en : ℕ → ℚ) (last : ℕ) :
    ℕ × ℕ × ℕ × ℕ :=
  attack_dedup last (vbr_last_fix last (vbr_periodicity en (ns_attack_marks a x)))

/-- The claim's non-periodicity condition for position i: the ratio of
the two neighbouring en_short energies reaches 1.7, or the larger of
them reaches 40000. -/
def attack_cond (en : ℕ → ℚ) (i : ℕ) : Prop :=
  1.7 * en i ≤ en (i - 1) ∨ 1.7 * en (i - 1) ≤ en i ∨ 40000 ≤ max (en (i - 1)) (en i)

/-! ## psymodel.c: the psy state written by psymodel_init
(psymodel.c:2799-2822)

Array extents (encoder.h, not in src/): 4 psy channels, CBANDS = 64
partition bands, SBMAX_l = 22 long and SBMAX_s = 13 short scalefactor
bands, 3 windows, 9 sub-short energies.  The init loops write the same
constant at every in-range index, so the fields are the constant
functions below. -/

/-- The per-channel psy state fields assigned by `psymodel_init`. -/
structure PsyStateInit where
  blocktypeOld : ℕ → BlockType
  nb_l1 : ℕ → ℕ → ℚ
  nb_l2 : ℕ → ℕ → ℚ
  nb_s1 : ℕ → ℕ → ℚ
  nb_s2 : ℕ → ℕ → ℚ
  enL : ℕ → ℕ → ℚ
  thmL : ℕ → ℕ → ℚ
  enS : ℕ → ℕ → ℕ → ℚ
  thmS : ℕ → ℕ → ℕ → ℚ
  lastAttacks : ℕ → ℕ
  lastEnSubshort : ℕ → ℕ → ℚ
  loudnessSqSave : ℕ → ℚ

/-- Embedding of the state initialization of `psymodel_init`
(psymodel.c:2800-2822): nb_l1/nb_l2 and the saved en/thm tables get the
loud sentinel 1e20, but nb_s1/nb_s2 get 1.0 and last_en_subshort
gets 10. -/
def psymodel_init_state : PsyStateInit where
  blocktypeOld := fun _ => BlockType.NORM
  nb_l1 := fun _ _ => 10 ^ 20
  nb_l2 := fun _ _ => 10 ^ 20
  nb_s1 := fun _ _ => 1
  nb_s2 := fun _ _ => 1
  enL := fun _ _ => 10 ^ 20
  thmL := fun _ _ => 10 ^ 20
  enS := fun _ _ _ => 10 ^ 20
  thmS := fun _ _ _ => 10 ^ 20
  lastAttacks := fun _ => 0
  lastEnSubshort := fun _ _ => 10
  loudnessSqSave := fun _ => 0

/-! ## lame.c: handle lifecycle (lame.c:1566-1602, 1963-1989, 2031-2050)

`LAME_ID` is defined in util.h (not in src/); its value is the magic
0xFFF88E3B, and only its being nonzero matters below. -/

/-- The class id checked by every API entry. -/
def LAME_ID : ℕ := 0xFFF88E3B

/-- The part of `lame_internal_flags` the guards read. -/
structure LameInternalFlags where
  classID : ℕ
  deriving DecidableEq, Repr

/-- A `lame_global_flags` handle: `internal_flags` is a nullable pointer
(None models NULL), plus the `lame_allocated_gfp` ownership flag. -/
structure LameGlobalFlags where
  internalFlags : Option LameInternalFlags
  lameAllocatedGfp : Bool
  deriving DecidableEq, Repr

/-- Dereferencing a NULL internal_flags pointer. -/
inductive PtrError where
  | nullDeref
  deriving DecidableEq, Repr

/-- Embedding of the common prologue of the lame_encode_buffer family
(lame.c:1566-1602 and siblings): `gfc = gfp->internal_flags` (NULL
dereference is the error), the `Class_ID != LAME_ID` guard returning -3,
the `nsamples == 0` shortcut returning 0 with the state untouched, the
calloc failure path returning -2 (`allocOk` is the allocator's verdict),
and the actual encoding abstracted as `body`. -/
def lame_encode_buffer (body : LameGlobalFlags → ℤ × LameGlobalFlags)
    (allocOk : Bool) (gfp : LameGlobalFlags) (nsamples : ℕ) :
    Except PtrError (ℤ × LameGlobalFlags) :=
  match gfp.internalFlags with
  | none => Except.error PtrError.nullDeref
  | some gfc =>
      if gfc.classID ≠ LAME_ID then Except.ok (-3, gfp)
      else if nsamples = 0 then Except.ok (0, gfp)
      else if ¬ allocOk then Except.ok (-2, gfp)
      else Except.ok (body gfp)

/-- Embedding of `lame_close` (lame.c:1963-1989): NULL internal_flags
dereferences (the error); wrong class returns -3; otherwise Class_ID is
reset, all internal state freed, `gfp->internal_flags = NULL`, and — when
lame allocated the handle — the handle itself freed, then 0 is
returned. -/
def lame_close (gfp : LameGlobalFlags) : Except PtrError (ℤ × LameGlobalFlags) :=
  match gfp.internalFlags with
  | none => Except.error PtrError.nullDeref
  | some gfc =>
      if gfc.classID ≠ LAME_ID then Except.ok (-3, gfp)
      else Except.ok (0, { internalFlags := none, lameAllocatedGfp := false })

/-- The handle produced by `lame_init` (lame.c:2031-2050): internal
flags allocated and zeroed (Class_ID = 0), `lame_allocated_gfp = 1`. -/
def lame_init_handle : LameGlobalFlags where
  internalFlags := some { classID := 0 }
  lameAllocatedGfp := true

/-- The Class_ID handoff of `lame_init_params` (lame.c:869):
`gfc->Class_ID = LAME_ID`. -/
def lame_init_params (gfp : LameGlobalFlags) : LameGlobalFlags where
  internalFlags := gfp.internalFlags.map (fun _ => { classID := LAME_ID })
  lameAllocatedGfp := gfp.lameAllocatedGfp

/-! # Theorems -/

/-! ## Table facts -/

theorem tab_nonneg (i : ℕ) : 0 ≤ tab i := by
  unfold tab
  split <;> norm_num

theorem one_le_table2 (i : ℕ) : 1 ≤ table2 i := by
  unfold table2
  split <;> norm_num

/-! ## C10: vbrpsy_mask_add is symmetric and dominates both maskers -/

theorem vbrpsy_mask_add_core_ge (c : MaskAddConsts) {m1 m2 : ℚ}
    (h1 : 0 ≤ m1) (h2 : 0 ≤ m2) (b : ℤ) :
    max m1 m2 ≤ vbrpsy_mask_add_core c m1 m2 b := by
  unfold vbrpsy_mask_add_core
  by_cases hz1 : m1 ≤ 0
  · have e : m1 = 0 := le_antisymm hz1 h1
    simp [e, max_eq_right h2]
  · rw [if_neg hz1]
    by_cases hz2 : m2 ≤ 0
    · have e : m2 = 0 := le_antisymm hz2 h2
      simp [e, max_eq_left h1]
    · rw [if_neg hz2]
      push_neg at hz1 hz2
      have hsum : max m1 m2 ≤ m1 + m2 := by
        rw [max_le_iff]
        constructor <;> linarith
      by_cases hb : -2 ≤ b ∧ b ≤ 2
      · rw [if_pos hb]
        by_cases hr : (if m2 > m1 then m2 / m1 else m1 / m2) ≥ c.maMaxI1
        · rw [if_pos hr]
          exact hsum
        · rw [if_neg hr]
          have ht := one_le_table2 (c.lg16 (if m2 > m1 then m2 / m1 else m1 / m2))
          have hs : m1 + m2
              ≤ (m1 + m2) * table2 (c.lg16 (if m2 > m1 then m2 / m1 else m1 / m2)) := by
            nlinarith
          exact le_trans hsum hs
      · rw [if_neg hb]
        by_cases hr : (if m2 > m1 then m2 / m1 else m1 / m2) < c.maMaxI2
        · rw [if_pos hr]
          exact hsum
        · rw [if_neg hr]
          by_cases hm : m1 < m2
          · rw [if_pos hm, max_le_iff]
            constructor <;> linarith
          · rw [if_neg hm, max_le_iff]
            push_neg at hm
            constructor <;> linarith

theorem vbrpsy_mask_add_core_symm (c : MaskAddConsts) (m1 m2 : ℚ) (b : ℤ)
    (h1 : 0 ≤ m1) (h2 : 0 ≤ m2) :
    vbrpsy_mask_add_core c m1 m2 b = vbrpsy_mask_add_core c m2 m1 b := by
  unfold vbrpsy_mask_add_core
  by_cases hz1 : m1 ≤ 0
  · have e : m1 = 0 := le_antisymm hz1 h1
    by_cases hz2 : m2 ≤ 0
    · have e2 : m2 = 0 := le_antisymm hz2 h2
      simp [e, e2]
    · simp [e, hz2]
  · by_cases hz2 : m2 ≤ 0
    · have e2 : m2 = 0 := le_antisymm hz2 h2
      simp [e2, hz1]
    · rw [if_neg hz1, if_neg hz2, if_neg hz2, if_neg hz1]
      have hrs : (if m2 > m1 then m2 / m1 else m1 / m2)
          = (if m1 > m2 then m1 / m2 else m2 / m1) := by
        rcases lt_trichotomy m1 m2 with h | h | h
        · simp [h, not_lt.mpr (le_of_lt h)]
        · simp [h]
        · simp [h, not_lt.mpr (le_of_lt h)]
      simp only [hrs]
      by_cases hb : -2 ≤ b ∧ b ≤ 2
      · rw [if_pos hb, if_pos hb]
        by_cases hr : (if m1 > m2 then m1 / m2 else m2 / m1) ≥ c.maMaxI1
        · rw [if_pos hr, if_pos hr]
          ring
        · rw [if_neg hr, if_neg hr]
          ring
      · rw [if_neg hb, if_neg hb]
        by_cases hr : (if m1 > m2 then m1 / m2 else m2 / m1) < c.maMaxI2
        · rw [if_pos hr, if_pos hr]
          ring
        · rw [if_neg hr, if_neg hr]
          rcases lt_trichotomy m1 m2 with h | h | h
          · simp [h, not_lt.mpr (le_of_lt h)]
          · simp [h]
          · simp [h, not_lt.mpr (le_of_lt h)]

/-- Helper shared by several claims: the combined masking is at least the
stronger masker and at least 0. -/
theorem vbrpsy_mask_add_ge (c : MaskAddConsts) (m1 m2 : ℚ) (b : ℤ) :
    max (max m1 m2) 0 ≤ vbrpsy_mask_add c m1 m2 b := by
  unfold vbrpsy_mask_add
  have c1 : (if m1 < 0 then 0 else m1) = max m1 0 := by
    rw [max_def]
    split_ifs <;> first | rfl | linarith
  have c2 : (if m2 < 0 then 0 else m2) = max m2 0 := by
    rw [max_def]
    split_ifs <;> first | rfl | linarith
  rw [c1, c2]
  have hmax : max (max m1 m2) 0 = max (max m1 0) (max m2 0) := by
    rcases le_total m1 m2 with h | h <;> rcases le_total m1 0 with h1 | h1 <;>
      rcases le_total m2 0 with h2 | h2 <;>
      simp [max_def] <;> split_ifs <;> linarith
  rw [hmax]
  exact vbrpsy_mask_add_core_ge c (le_max_right m1 0) (le_max_right m2 0) b

/-- Helper shared by several claims: `vbrpsy_mask_add` is symmetric in its
two masker arguments. -/
theorem vbrpsy_mask_add_symm (c : MaskAddConsts) (m1 m2 : ℚ) (b : ℤ) :
    vbrpsy_mask_add c m1 m2 b = vbrpsy_mask_add c m2 m1 b := by
  unfold vbrpsy_mask_add
  apply vbrpsy_mask_add_core_symm c
  · split_ifs with h
    · exact le_refl 0
    · push_neg at h
      exact h
  · split_ifs with h
    · exact le_refl 0
    · push_neg at h
      exact h

/-- C10: for all maskers m1, m2 and every partition distance b,
`vbrpsy_mask_add` is symmetric in m1 and m2, and its result is at least
max(m1, m2, 0): combining two maskers never produces weaker masking than
the stronger masker alone.  This holds for every value of the process-wide
constants ma_max_i1/ma_max_i2 and of the fast-log index function. -/
theorem vbrpsy_mask_add_symm_and_ge (c : MaskAddConsts) (m1 m2 : ℚ) (b : ℤ) :
    vbrpsy_mask_add c m1 m2 b = vbrpsy_mask_add c m2 m1 b ∧
    max (max m1 m2) 0 ≤ vbrpsy_mask_add c m1 m2 b :=
  ⟨vbrpsy_mask_add_symm c m1 m2 b, vbrpsy_mask_add_ge c m1 m2 b⟩

/-! ## C1: threshold versus band energy after the psy analysis -/

theorem vbrpsy_mask_add_nonneg (c : MaskAddConsts) (m1 m2 : ℚ) (b : ℤ) :
    0 ≤ vbrpsy_mask_add c m1 m2 b :=
  le_trans (le_max_right (max m1 m2) 0) (vbrpsy_mask_add_ge c m1 m2 b)

theorem vbr_convolve_go_nonneg (c : MaskAddConsts) (b : ℤ) :
    ∀ (row : List (ℚ × ℚ × ℕ)) (kk : ℕ) (ecb : ℚ), 0 ≤ ecb →
      0 ≤ vbr_convolve_go c b kk ecb row := by
  intro row
  induction row with
  | nil =>
      intro kk ecb h
      simpa [vbr_convolve_go] using h
  | cons t rest ih =>
      intro kk ecb _
      rcases t with ⟨s3v, ebv, idx⟩
      simp only [vbr_convolve_go]
      exact ih _ _ (vbrpsy_mask_add_nonneg c _ _ _)

theorem vbr_avg_mask_nonneg (row : List (ℚ × ℚ × ℕ)) : 0 ≤ vbr_avg_mask row := by
  unfold vbr_avg_mask
  have := tab_nonneg (vbr_dd row)
  nlinarith

theorem vbr_ecb_l_nonneg (c : MaskAddConsts) (b : ℤ) (kk0 : ℕ)
    (row : List (ℚ × ℚ × ℕ)) (hrow : ∀ t ∈ row, 0 ≤ t.1 ∧ 0 ≤ t.2.1) :
    0 ≤ vbr_ecb_l c b kk0 row := by
  unfold vbr_ecb_l
  apply mul_nonneg _ (vbr_avg_mask_nonneg row)
  match row, hrow with
  | [], _ => exact le_refl 0
  | (s3v, ebv, idx) :: rest, hrow =>
      have h := hrow (s3v, ebv, idx) (List.mem_cons_self _ _)
      exact vbr_convolve_go_nonneg c b rest _ _
        (mul_nonneg (mul_nonneg h.1 h.2) (tab_nonneg idx))

theorem vbrpsy_thr_clamp_bounds (thr x ebb ml : ℚ)
    (ht : 0 ≤ thr) (hx : 0 ≤ x) (hebb : 0 ≤ ebb) (hml : 0 ≤ ml) :
    0 ≤ vbrpsy_thr_clamp thr x ebb ml ∧ vbrpsy_thr_clamp thr x ebb ml ≤ ebb := by
  unfold vbrpsy_thr_clamp
  dsimp only
  split_ifs with h1 h2 h3 h4 h5 h6 h7 h8 h9 h10 h11 h12 <;>
    constructor <;> nlinarith [mul_nonneg ht hml, mul_nonneg hx hml, mul_nonneg hebb hml]

/-- C1 (amended): in the VBR analyzer, after `vbrpsy_compute_masking_l`
the threshold of every partition band b is bounded by the band energy:
0 ≤ thr[b] ≤ eb_l[b].  Hypotheses: the spreading weights and partition
energies feeding the band are nonnegative, and the band energy, tonal
limit factors, masking_lower and NS_PREECHO_ATT2 are nonnegative — all
guaranteed by the source (energies are sums of squares, the factors are
powers).  The original claim also asserted this for `L3psycho_anal_ns`,
which is refuted by `L3psycho_anal_ns_thr_can_exceed_en`. -/
theorem vbrpsy_compute_masking_l_thr_le_en (c : MaskAddConsts) (old : BlockType)
    (rpelev rpelev2 attTwo nb1 nb2 maxb minval maskingLower : ℚ)
    (b : ℤ) (kk0 : ℕ) (row : List (ℚ × ℚ × ℕ)) (ebb : ℚ)
    (hrow : ∀ t ∈ row, 0 ≤ t.1 ∧ 0 ≤ t.2.1)
    (hebb : 0 ≤ ebb) (hmax : 0 ≤ maxb) (hmin : 0 ≤ minval)
    (hml : 0 ≤ maskingLower) (hatt : 0 ≤ attTwo) :
    0 ≤ vbrpsy_compute_masking_l_band c old rpelev rpelev2 attTwo nb1 nb2
        maxb minval maskingLower b kk0 row ebb ∧
    vbrpsy_compute_masking_l_band c old rpelev rpelev2 attTwo nb1 nb2
        maxb minval maskingLower b kk0 row ebb ≤ ebb := by
  unfold vbrpsy_compute_masking_l_band
  dsimp only
  have hecb : 0 ≤ vbr_ecb_l c b kk0 row := vbr_ecb_l_nonneg c b kk0 row hrow
  have hxn : 0 ≤ maxb * minval * vbr_avg_mask row :=
    mul_nonneg (mul_nonneg hmax hmin) (vbr_avg_mask_nonneg row)
  apply vbrpsy_thr_clamp_bounds _ _ _ _ _ hxn hebb hml
  by_cases hs : old = BlockType.SHORT
  · rw [if_pos hs]
    by_cases hl : rpelev * nb1 > 0
    · rw [if_pos hl]
      exact le_min hecb (le_of_lt hl)
    · rw [if_neg hl]
      exact le_min hecb (mul_nonneg hebb hatt)
  · rw [if_neg hs]
    apply le_min hecb
    by_cases h2 : rpelev2 * nb2 ≤ 0 <;> by_cases h1 : rpelev * nb1 ≤ 0 <;>
      simp only [h1, h2, if_true, if_false] <;>
      by_cases hn : old = BlockType.NORM <;>
      simp only [hn, if_true, if_false, le_min_iff] <;>
      push_neg at h1 h2 <;>
      first
        | exact hecb
        | exact le_of_lt h1
        | exact ⟨hecb, hecb⟩
        | exact ⟨hecb, le_of_lt h2⟩
        | exact ⟨le_of_lt h1, hecb⟩
        | exact ⟨le_of_lt h1, le_of_lt h2⟩

/-- Witness for C1 at a concrete band: a single-column row with weight 1,
energy 1, mask index 0, previous block NORM, all factors 1. -/
theorem vbrpsy_compute_masking_l_thr_le_en_witness :
    0 ≤ vbrpsy_compute_masking_l_band exMaskConsts BlockType.NORM
        2 16 (3/10) 1 1 1 1 1 0 0 [(1, 1, 0)] 1 ∧
    vbrpsy_compute_masking_l_band exMaskConsts BlockType.NORM
        2 16 (3/10) 1 1 1 1 1 0 0 [(1, 1, 0)] 1 ≤ 1 :=
  vbrpsy_compute_masking_l_thr_le_en exMaskConsts BlockType.NORM
    2 16 (3/10) 1 1 1 1 1 0 0 [(1, 1, 0)] 1
    (by intro t ht; simp at ht; simp [ht]) (by norm_num) (by norm_num)
    (by norm_num) (by norm_num) (by norm_num)

/-- Counterexample to C1 as stated: in `L3psycho_anal_ns` there is no
clamp of thr[b] against eb_l[b].  Concrete band: b = 1, row covering
partitions kk = 0, 1 with spreading weights 1, energies eb_l = [100, 0]
and mask indices 0; the previous granule was SHORT, so thr[1] is the full
spread energy 100 * pow(10,-0.8) ≈ 15.85, which exceeds the band's own
energy eb_l[1] = 0.  Hence thr[b] ≤ en[b] fails for the ns analyzer. -/
theorem L3psycho_anal_ns_thr_can_exceed_en :
    ¬ (L3psycho_anal_ns_thr_l exAthEnv exMaskConsts (fun _ _ => 0) true
        2 16 (6/10) 1 1 1 0 [(1, 100, 0), (1, 0, 0)] ≤ 0) := by
  norm_num [L3psycho_anal_ns_thr_l, ns_convolve, ns_convolve_go, mask_add,
    mask_add_body, exAthEnv, exMaskConsts, tab]

/-! ## C2: legality of the emitted block-type sequence -/

theorem blockPair_step (old : BlockType) (u u' : Bool) :
    blockPairOK (vbrpsy_apply_block_type_step old u).1
      (vbrpsy_apply_block_type_step (vbrpsy_apply_block_type_step old u).2 u').1 := by
  rcases old <;> cases u <;> cases u' <;> decide

theorem blockTypeTrace_chain (us : List Bool) :
    ∀ old, List.Chain' blockPairOK (blockTypeTrace old us) := by
  induction us with
  | nil =>
      intro old
      simp [blockTypeTrace]
  | cons u us ih =>
      intro old
      have h := ih (vbrpsy_apply_block_type_step old u).2
      cases us with
      | nil => simp [blockTypeTrace]
      | cons u' us' =>
          simp only [blockTypeTrace] at h ⊢
          exact List.chain'_cons.mpr ⟨blockPair_step old u u', h⟩

theorem blockTypeTrace_head_ne_short (us : List Bool) :
    (blockTypeTrace BlockType.NORM us).head? ≠ some BlockType.SHORT := by
  cases us with
  | nil => simp [blockTypeTrace]
  | cons u us => cases u <;> simp [blockTypeTrace, vbrpsy_apply_block_type_step]

theorem block_type_set_trace_map_fst (sb : ShortBlocks) (us : List (Bool × Bool)) :
    ∀ o0 o1, (block_type_set_trace sb o0 o1 us).map Prod.fst
      = blockTypeTrace o0 (us.map (fun u => (block_type_eff sb u).1)) := by
  induction us with
  | nil =>
      intro o0 o1
      simp [block_type_set_trace, blockTypeTrace]
  | cons u us ih =>
      intro o0 o1
      simp [block_type_set_trace, blockTypeTrace, ih]

theorem block_type_set_trace_map_snd (sb : ShortBlocks) (us : List (Bool × Bool)) :
    ∀ o0 o1, (block_type_set_trace sb o0 o1 us).map Prod.snd
      = blockTypeTrace o1 (us.map (fun u => (block_type_eff sb u).2)) := by
  induction us with
  | nil =>
      intro o0 o1
      simp [block_type_set_trace, blockTypeTrace]
  | cons u us ih =>
      intro o0 o1
      simp [block_type_set_trace, blockTypeTrace, ih]

/-- C2: starting from blocktype_old = NORM (as set by psymodel_init), the
per-channel block-type sequences emitted by `block_type_set` (under every
short_blocks setting) and by `vbrpsy_apply_block_type` are legal: every
adjacent pair satisfies `blockPairOK` — a SHORT granule is followed only
by SHORT or STOP and preceded only by SHORT or START, so SHORT is never
adjacent to NORM, START opens every SHORT run and STOP closes it — and
the first emitted granule is never SHORT. -/
theorem block_type_legality :
    (∀ (sb : ShortBlocks) (us : List (Bool × Bool)),
      List.Chain' blockPairOK
        ((block_type_set_trace sb BlockType.NORM BlockType.NORM us).map Prod.fst) ∧
      List.Chain' blockPairOK
        ((block_type_set_trace sb BlockType.NORM BlockType.NORM us).map Prod.snd) ∧
      ((block_type_set_trace sb BlockType.NORM BlockType.NORM us).map Prod.fst).head?
        ≠ some BlockType.SHORT ∧
      ((block_type_set_trace sb BlockType.NORM BlockType.NORM us).map Prod.snd).head?
        ≠ some BlockType.SHORT) ∧
    (∀ us : List Bool,
      List.Chain' blockPairOK (blockTypeTrace BlockType.NORM us) ∧
      (blockTypeTrace BlockType.NORM us).head? ≠ some BlockType.SHORT) := by
  constructor
  · intro sb us
    rw [block_type_set_trace_map_fst sb us, block_type_set_trace_map_snd sb us]
    exact ⟨blockTypeTrace_chain _ _, blockTypeTrace_chain _ _,
      blockTypeTrace_head_ne_short _, blockTypeTrace_head_ne_short _⟩
  · intro us
    exact ⟨blockTypeTrace_chain us _, blockTypeTrace_head_ne_short us⟩

/-! ## C3 and C4: the quantization gain loops -/

theorem le_foldr_max (l : List ℤ) (a b : ℤ) (h : a ∈ l) : a ≤ l.foldr max b := by
  induction l with
  | nil => cases h
  | cons c l ih =>
      rcases List.mem_cons.mp h with rfl | h
      · exact le_max_left _ _
      · exact le_trans (ih h) (le_max_right _ _)

theorem rat_lt_two_zpow (x : ℚ) (g : ℤ)
    (h : ((x.num.toNat.size : ℕ) : ℤ) ≤ g) : x < 2 ^ g := by
  rcases le_or_lt x 0 with hx | hx
  · exact lt_of_le_of_lt hx (zpow_pos (by norm_num) g)
  · have hnum : 0 < x.num := Rat.num_pos.mpr hx
    have hden : (1 : ℚ) ≤ (x.den : ℚ) := by
      exact_mod_cast Nat.one_le_iff_ne_zero.mpr x.den_ne_zero
    have h1 : x ≤ (x.num : ℚ) := by
      conv_lhs => rw [← Rat.num_div_den x]
      exact div_le_self (by exact_mod_cast hnum.le) hden
    have h2 : ((x.num.toNat : ℕ) : ℚ) = (x.num : ℚ) := by
      have := Int.toNat_of_nonneg hnum.le
      exact_mod_cast congrArg (fun z : ℤ => (z : ℚ)) this
    have h3 : ((x.num.toNat : ℕ) : ℚ) < ((2 ^ x.num.toNat.size : ℕ) : ℚ) := by
      exact_mod_cast Nat.lt_size_self x.num.toNat
    have h4 : ((2 ^ x.num.toNat.size : ℕ) : ℚ) ≤ 2 ^ g := by
      have h5 : (2 : ℚ) ^ ((x.num.toNat.size : ℕ) : ℤ) ≤ (2 : ℚ) ^ g :=
        zpow_le_zpow_right₀ (by norm_num) h
      calc ((2 ^ x.num.toNat.size : ℕ) : ℚ) = (2 : ℚ) ^ (x.num.toNat.size : ℕ) := by
            push_cast
            ring
        _ = (2 : ℚ) ^ ((x.num.toNat.size : ℕ) : ℤ) := by rw [zpow_natCast]
        _ ≤ _ := h5
    linarith

theorem quantIx_eq_zero {x : ℚ} {g : ℤ} (h : x < 2 ^ g) : quantIx x g = 0 := by
  unfold quantIx
  apply Int.toNat_of_nonpos
  have hpos : (0 : ℚ) < 2 ^ g := zpow_pos (by norm_num) g
  have h1 : x / 2 ^ g < 1 := (div_lt_one hpos).mpr h
  have h2 : Int.floor (x / 2 ^ g) < 1 := Int.floor_lt.mpr (by exact_mod_cast h1)
  omega

theorem count_bits_eq_zero (xs : List ℚ) (g : ℤ) (h : gainBound xs ≤ g) :
    count_bits xs g = 0 := by
  unfold count_bits
  apply List.sum_eq_zero
  intro y hy
  simp only [List.mem_map] at hy
  obtain ⟨x, hx, rfl⟩ := hy
  have hsz : ((x.num.toNat.size : ℕ) : ℤ) ≤ g := by
    refine le_trans ?_ h
    exact le_foldr_max _ _ _ (List.mem_map_of_mem _ hx)
  rw [quantIx_eq_zero (rat_lt_two_zpow x g hsz), Nat.size_zero]

theorem inner_loop_go_ge (xs : List ℚ) (mb : ℕ) :
    ∀ (fuel : ℕ) (gain : ℤ), gain ≤ (inner_loop_go xs mb fuel gain).1 := by
  intro fuel
  induction fuel with
  | zero =>
      intro gain
      exact le_refl gain
  | succ fuel ih =>
      intro gain
      simp only [inner_loop_go]
      split_ifs with h
      · exact le_refl gain
      · exact le_trans (by omega) (ih (gain + 1))

theorem inner_loop_go_fits (xs : List ℚ) (mb : ℕ) :
    ∀ (fuel : ℕ) (gain : ℤ), gainBound xs ≤ gain + fuel →
      (inner_loop_go xs mb fuel gain).2 ≤ mb := by
  intro fuel
  induction fuel with
  | zero =>
      intro gain h
      have : count_bits xs gain = 0 := count_bits_eq_zero xs gain (by omega)
      simp only [inner_loop_go, this]
      omega
  | succ fuel ih =>
      intro gain h
      simp only [inner_loop_go]
      split_ifs with hb
      · exact hb
      · refine ih (gain + 1) ?_
        push_cast at h ⊢
        omega

theorem inner_loop_go_bits_eq (xs : List ℚ) (mb : ℕ) :
    ∀ (fuel : ℕ) (gain : ℤ),
      (inner_loop_go xs mb fuel gain).2 = count_bits xs (inner_loop_go xs mb fuel gain).1 := by
  intro fuel
  induction fuel with
  | zero =>
      intro gain
      rfl
  | succ fuel ih =>
      intro gain
      simp only [inner_loop_go]
      split_ifs with h
      · rfl
      · exact ih (gain + 1)

theorem inner_loop_go_min (xs : List ℚ) (mb : ℕ) :
    ∀ (fuel : ℕ) (gain g : ℤ), gain ≤ g → count_bits xs g ≤ mb →
      (inner_loop_go xs mb fuel gain).1 ≤ g := by
  intro fuel
  induction fuel with
  | zero =>
      intro gain g h1 _
      exact h1
  | succ fuel ih =>
      intro gain g h1 h2
      simp only [inner_loop_go]
      split_ifs with hb
      · exact h1
      · refine ih (gain + 1) g ?_ h2
        rcases eq_or_lt_of_le h1 with rfl | h
        · exact absurd h2 hb
        · omega

/-- C4: for every (spec-modelled) spectrum, every nonnegative bit budget
and every start gain, `inner_loop` terminates (it is a total function;
its internal fuel bounds the loop by the gain at which every coefficient
quantizes to zero, which the loop can never run past), only ever
increases global_gain from its starting value, and returns a bit count
that equals count_bits at the final gain and is ≤ max_bits. -/
theorem inner_loop_spec (xrpow : List ℚ) (maxBits : ℕ) (gain : ℤ) :
    gain ≤ (inner_loop xrpow maxBits gain).1 ∧
    (inner_loop xrpow maxBits gain).2 ≤ maxBits ∧
    (inner_loop xrpow maxBits gain).2
      = count_bits xrpow (inner_loop xrpow maxBits gain).1 := by
  refine ⟨inner_loop_go_ge xrpow maxBits _ gain, ?_, inner_loop_go_bits_eq xrpow maxBits _ gain⟩
  apply inner_loop_go_fits
  push_cast
  omega

theorem inner_loop_min (xs : List ℚ) (mb : ℕ) (gain g : ℤ)
    (h1 : gain ≤ g) (h2 : count_bits xs g ≤ mb) :
    (inner_loop xs mb gain).1 ≤ g :=
  inner_loop_go_min xs mb _ gain g h1 h2

theorem bin_search_go_range (bits : ℤ → ℕ) (desired : ℕ) :
    ∀ (fuel : ℕ) (stepSize curStep : ℤ) (dir : BinsearchDirection) (gone : Bool),
      0 ≤ stepSize → stepSize ≤ 255 → 0 ≤ curStep →
      0 ≤ (bin_search_StepSize_go bits desired fuel stepSize curStep dir gone).1 ∧
      (bin_search_StepSize_go bits desired fuel stepSize curStep dir gone).1 ≤ 255 := by
  intro fuel
  induction fuel with
  | zero =>
      intro s c dir gone h0 h255 _
      exact ⟨h0, h255⟩
  | succ fuel ih =>
      intro s c dir gone h0 h255 hc
      simp only [bin_search_StepSize_go]
      split_ifs <;>
        first
          | exact ⟨h0, h255⟩
          | (apply ih <;> omega)

theorem bin_search_go_bits (bits : ℤ → ℕ) (desired : ℕ) :
    ∀ (fuel : ℕ) (stepSize curStep : ℤ) (dir : BinsearchDirection) (gone : Bool),
      (bin_search_StepSize_go bits desired fuel stepSize curStep dir gone).2
        = bits (bin_search_StepSize_go bits desired fuel stepSize curStep dir gone).1 := by
  intro fuel
  induction fuel with
  | zero =>
      intro s c dir gone
      rfl
  | succ fuel ih =>
      intro s c dir gone
      simp only [bin_search_StepSize_go]
      split_ifs <;> first | rfl | apply ih

/-- C3 (amended): `bin_search_StepSize` keeps global_gain within
0..255 given a start value in 0..255 and a nonnegative CurrentStep (the
source uses 2 or 4), for every bit-count function and bit budget; and the
global gain of `outer_loop` stays in [0, 256) provided the bit count at
gain 255 does not exceed the budget — the condition under which the
`inner_loop` climb is guaranteed to stop by 255.  Without that condition
the final assert of outer_loop can fail: see
`outer_loop_gain_assert_can_fail`. -/
theorem global_gain_range :
    (∀ (bits : ℤ → ℕ) (desired : ℕ) (start curStep : ℤ) (fuel : ℕ),
      0 ≤ start → start ≤ 255 → 0 ≤ curStep →
      0 ≤ (bin_search_StepSize bits desired start curStep fuel).1 ∧
      (bin_search_StepSize bits desired start curStep fuel).1 ≤ 255) ∧
    (∀ (xrpow : List ℚ) (oldValue curStep : ℤ) (targBits : ℕ) (fuel : ℕ),
      0 ≤ oldValue → oldValue ≤ 255 → 0 ≤ curStep →
      count_bits xrpow 255 ≤ targBits →
      0 ≤ outer_loop_gain xrpow oldValue curStep targBits fuel ∧
      outer_loop_gain xrpow oldValue curStep targBits fuel < 256) := by
  constructor
  · intro bits desired start curStep fuel h0 h255 hc
    exact bin_search_go_range bits desired fuel start curStep _ _ h0 h255 hc
  · intro xs oldValue curStep targ fuel h0 h255 hc h255bits
    have hr := bin_search_go_range (count_bits xs) targ fuel oldValue curStep
      BinsearchDirection.NONE false h0 h255 hc
    have hb := bin_search_go_bits (count_bits xs) targ fuel oldValue curStep
      BinsearchDirection.NONE false
    unfold outer_loop_gain bin_search_StepSize
    unfold bin_search_StepSize at hr hb
    dsimp only
    split_ifs with hcase
    · set r := bin_search_StepSize_go (count_bits xs) targ fuel oldValue curStep
        BinsearchDirection.NONE false with hrdef
      have hne : r.1 ≠ 255 := by
        intro e
        rw [hb, e] at hcase
        omega
      have hstart : r.1 + 1 ≤ 255 := by omega
      have hge := (inner_loop_spec xs targ (r.1 + 1)).1
      have hmin := inner_loop_min xs targ (r.1 + 1) 255 hstart h255bits
      constructor
      · omega
      · omega
    · exact ⟨hr.1, by omega⟩

/-- Witness for C3: a tiny spectrum (one coefficient of value 4, which
quantizes to 0 at gain 255) at start gain 210, CurrentStep 4, budget 0. -/
theorem global_gain_range_witness :
    (0 ≤ (bin_search_StepSize (fun _ => 5) 0 210 4 100).1 ∧
     (bin_search_StepSize (fun _ => 5) 0 210 4 100).1 ≤ 255) ∧
    (0 ≤ outer_loop_gain [4] 210 4 0 100 ∧
     outer_loop_gain [4] 210 4 0 100 < 256) := by
  refine ⟨global_gain_range.1 (fun _ => 5) 0 210 4 100 (by norm_num) (by norm_num) (by norm_num),
    global_gain_range.2 [4] 210 4 0 100 (by norm_num) (by norm_num) (by norm_num) ?_⟩
  have h4 : (4 : ℚ) < 2 ^ (255 : ℤ) := by
    have e : (4 : ℚ) = 2 ^ (2 : ℤ) := by norm_num
    rw [e]
    exact zpow_lt_zpow_right₀ (by norm_num) (by norm_num)
  simp [count_bits, quantIx_eq_zero h4]

/-- Counterexample to C3 as stated: the global gain is NOT in [0, 256)
for every budget and spectrum.  `inner_loop` (quantize.c:226-230) has no
saturation at 255, so for the concrete spectrum with one coefficient of
value 2^256, start gain 180, CurrentStep 4 and bit budget 0 — whose bit
count is still positive at gain 255 — outer_loop's first iteration drives
global_gain past 255 (to 257) and the assert at quantize.c:993 fails. -/
theorem outer_loop_gain_assert_can_fail :
    ¬ (outer_loop_gain [(2 : ℚ) ^ 256] 180 4 0 100 < 256) := by
  have hpos : ∀ g : ℤ, g ≤ 256 → 0 < count_bits [(2 : ℚ) ^ 256] g := by
    intro g hg
    have h2 : (1 : ℚ) ≤ (2 : ℚ) ^ 256 / 2 ^ g := by
      rw [le_div_iff₀ (zpow_pos (by norm_num) g)]
      have hle : (2 : ℚ) ^ g ≤ (2 : ℚ) ^ (256 : ℤ) :=
        zpow_le_zpow_right₀ (by norm_num) hg
      calc (1 : ℚ) * 2 ^ g = 2 ^ g := one_mul _
        _ ≤ (2 : ℚ) ^ (256 : ℤ) := hle
        _ = (2 : ℚ) ^ (256 : ℕ) := by
            rw [← zpow_natCast]
            norm_num
    have hfl : 1 ≤ Int.floor ((2 : ℚ) ^ 256 / 2 ^ g) := by
      rw [Int.le_floor]
      exact_mod_cast h2
    have hq : 0 < quantIx ((2 : ℚ) ^ 256) g := by
      unfold quantIx
      omega
    have hs := Nat.size_pos.mpr hq
    simp only [count_bits, List.map, List.sum_cons, List.sum_nil]
    omega
  have hr := bin_search_go_range (count_bits [(2 : ℚ) ^ 256]) 0 100 180 4
    BinsearchDirection.NONE false (by norm_num) (by norm_num) (by norm_num)
  have hb := bin_search_go_bits (count_bits [(2 : ℚ) ^ 256]) 0 100 180 4
    BinsearchDirection.NONE false
  unfold outer_loop_gain bin_search_StepSize
  dsimp only
  set r := bin_search_StepSize_go (count_bits [(2 : ℚ) ^ 256]) 0 100 180 4
    BinsearchDirection.NONE false with hrdef
  have hgt : r.2 > 0 := by
    rw [hb]
    exact hpos r.1 (by omega)
  rw [if_pos hgt]
  intro hcon
  have hspec := inner_loop_spec [(2 : ℚ) ^ 256] 0 (r.1 + 1)
  have hz : count_bits [(2 : ℚ) ^ 256] (inner_loop [(2 : ℚ) ^ 256] 0 (r.1 + 1)).1 = 0 := by
    omega
  have hp := hpos (inner_loop [(2 : ℚ) ^ 256] 0 (r.1 + 1)).1 (by omega)
  omega

/-- Witness for C2 on a concrete decision sequence (an attack in granules
3 and 4): the emitted trace is NORM, NORM, START, SHORT, SHORT, STOP, ...
and is legal. -/
theorem block_type_legality_witness :
    List.Chain' blockPairOK
      (blockTypeTrace BlockType.NORM [true, true, false, false, true, true]) ∧
    (blockTypeTrace BlockType.NORM [true, true, false, false, true, true]).head?
      ≠ some BlockType.SHORT :=
  block_type_legality.2 [true, true, false, false, true, true]

/-! ## C7: the attack periodicity filter -/

theorem attack_dedup_slot (last : ℕ) (t : ℕ × ℕ × ℕ × ℕ) (i : ℕ) :
    attackGet (attack_dedup last t) i = 0 ∨
    attackGet (attack_dedup last t) i = attackGet t i := by
  rcases t with ⟨t1, t2, t3, t4⟩
  unfold attack_dedup
  dsimp only
  split_ifs <;> rcases i with _ | _ | _ | i <;> simp [attackGet]

theorem ns_last_fix_get (last : ℕ) (t : ℕ × ℕ × ℕ × ℕ) (i : ℕ) (hi : 1 ≤ i) :
    attackGet (ns_last_fix last t) i = attackGet t i := by
  rcases t with ⟨t1, t2, t3, t4⟩
  unfold ns_last_fix
  split_ifs <;> rcases i with _ | _ | _ | i <;> first | omega | simp [attackGet]

theorem vbr_last_fix_get (last : ℕ) (t : ℕ × ℕ × ℕ × ℕ) (i : ℕ) (hi : 1 ≤ i) :
    attackGet (vbr_last_fix last t) i = attackGet t i := by
  rcases t with ⟨t1, t2, t3, t4⟩
  unfold vbr_last_fix
  split_ifs <;> rcases i with _ | _ | _ | i <;> first | omega | simp [attackGet]

theorem ns_periodicity_get1 (en : ℕ → ℚ) (t : ℕ × ℕ × ℕ × ℕ) :
    attackGet (ns_periodicity en t) 1 = if ns_ratio en 1 < 1.7 then 0 else t.2.1 := by
  rcases t with ⟨t1, t2, t3, t4⟩
  unfold ns_periodicity
  dsimp only
  split_ifs <;> simp [attackGet]

theorem ns_periodicity_get2 (en : ℕ → ℚ) (t : ℕ × ℕ × ℕ × ℕ) :
    attackGet (ns_periodicity en t) 2 = if ns_ratio en 2 < 1.7 then 0 else t.2.2.1 := by
  rcases t with ⟨t1, t2, t3, t4⟩
  unfold ns_periodicity
  dsimp only
  split_ifs <;> simp [attackGet]

theorem ns_periodicity_get3 (en : ℕ → ℚ) (t : ℕ × ℕ × ℕ × ℕ) :
    attackGet (ns_periodicity en t) 3 = if ns_ratio en 3 < 1.7 then 0 else t.2.2.2 := by
  rcases t with ⟨t1, t2, t3, t4⟩
  unfold ns_periodicity
  dsimp only
  split_ifs <;> simp [attackGet]

theorem vbr_periodicity_get1 (en : ℕ → ℚ) (t : ℕ × ℕ × ℕ × ℕ) :
    attackGet (vbr_periodicity en t) 1
      = if max (en 0) (en 1) < 40000 ∧ en 0 < 1.7 * en 1 ∧ en 1 < 1.7 * en 0 then 0
        else t.2.1 := by
  rcases t with ⟨t1, t2, t3, t4⟩
  unfold vbr_periodicity
  dsimp only
  split_ifs <;> simp [attackGet]

theorem vbr_periodicity_get2 (en : ℕ → ℚ) (t : ℕ × ℕ × ℕ × ℕ) :
    attackGet (vbr_periodicity en t) 2
      = if max (en 1) (en 2) < 40000 ∧ en 1 < 1.7 * en 2 ∧ en 2 < 1.7 * en 1 then 0
        else t.2.2.1 := by
  rcases t with ⟨t1, t2, t3, t4⟩
  unfold vbr_periodicity
  dsimp only
  split_ifs <;> simp [attackGet]

theorem vbr_periodicity_get3 (en : ℕ → ℚ) (t : ℕ × ℕ × ℕ × ℕ) :
    attackGet (vbr_periodicity en t) 3
      = if max (en 2) (en 3) < 40000 ∧ en 2 < 1.7 * en 3 ∧ en 3 < 1.7 * en 2 then 0
        else t.2.2.2 := by
  rcases t with ⟨t1, t2, t3, t4⟩
  unfold vbr_periodicity
  dsimp only
  split_ifs <;> simp [attackGet]

theorem ns_attack_mark_ne_zero (a : ℕ → ℚ) (x : ℚ) (k : ℕ)
    (h : ns_attack_mark a x k ≠ 0) :
    x < a (3 * k) ∨ x < a (3 * k + 1) ∨ x < a (3 * k + 2) := by
  unfold ns_attack_mark at h
  split_ifs at h with h1 h2 h3
  · exact Or.inl h1
  · exact Or.inr (Or.inl h2)
  · exact Or.inr (Or.inr h3)
  · exact absurd rfl h

theorem ns_ratio_lt_iff (en : ℕ → ℚ) (i : ℕ)
    (h1 : 0 < en (i - 1)) (h2 : 0 < en i) :
    ns_ratio en i < 1.7 ↔ (en (i - 1) < 1.7 * en i ∧ en i < 1.7 * en (i - 1)) := by
  unfold ns_ratio
  split_ifs with h
  · rw [div_lt_iff₀ h2]
    constructor
    · intro hh
      exact ⟨hh, by linarith⟩
    · intro hh
      exact hh.1
  · push_neg at h
    rw [div_lt_iff₀ h1]
    constructor
    · intro hh
      exact ⟨by linarith, hh⟩
    · intro hh
      exact hh.2

theorem ns_pipeline_char (a : ℕ → ℚ) (x : ℚ) (en : ℕ → ℚ) (last : ℕ) :
    ∀ i, 1 ≤ i → i ≤ 3 →
      (attackGet (L3psycho_anal_ns_attacks a x en last) i ≠ 0 →
        ¬ (ns_ratio en i < 1.7) ∧ ns_attack_mark a x i ≠ 0) ∧
      (ns_ratio en i < 1.7 → attackGet (L3psycho_anal_ns_attacks a x en last) i = 0) := by
  intro i hi1 hi3
  have hslot := attack_dedup_slot last
    (ns_last_fix last (ns_periodicity en (ns_attack_marks a x))) i
  have hfix := ns_last_fix_get last (ns_periodicity en (ns_attack_marks a x)) i hi1
  have hget : attackGet (ns_periodicity en (ns_attack_marks a x)) i
      = if ns_ratio en i < 1.7 then 0 else ns_attack_mark a x i := by
    interval_cases i
    · exact ns_periodicity_get1 en _
    · exact ns_periodicity_get2 en _
    · exact ns_periodicity_get3 en _
  unfold L3psycho_anal_ns_attacks
  constructor
  · intro hsur
    rcases hslot with hz | he
    · exact absurd hz hsur
    · rw [he, hfix, hget] at hsur
      by_cases hr : ns_ratio en i < 1.7
      · rw [if_pos hr] at hsur
        exact absurd rfl hsur
      · rw [if_neg hr] at hsur
        exact ⟨hr, hsur⟩
  · intro hr
    have hz : attackGet (ns_periodicity en (ns_attack_marks a x)) i = 0 := by
      rw [hget, if_pos hr]
    rcases hslot with h | h
    · exact h
    · rw [h, hfix, hz]

theorem vbr_pipeline_char (a : ℕ → ℚ) (x : ℚ) (en : ℕ → ℚ) (last : ℕ) :
    ∀ i, 1 ≤ i → i ≤ 3 →
      (attackGet (vbrpsy_attack_detection_attacks a x en last) i ≠ 0 →
        ¬ (max (en (i - 1)) (en i) < 40000 ∧
            en (i - 1) < 1.7 * en i ∧ en i < 1.7 * en (i - 1)) ∧
        ns_attack_mark a x i ≠ 0) ∧
      ((max (en (i - 1)) (en i) < 40000 ∧
          en (i - 1) < 1.7 * en i ∧ en i < 1.7 * en (i - 1)) →
        attackGet (vbrpsy_attack_detection_attacks a x en last) i = 0) := by
  intro i hi1 hi3
  have hslot := attack_dedup_slot last
    (vbr_last_fix last (vbr_periodicity en (ns_attack_marks a x))) i
  have hfix := vbr_last_fix_get last (vbr_periodicity en (ns_attack_marks a x)) i hi1
  have hget : attackGet (vbr_periodicity en (ns_attack_marks a x)) i
      = if (max (en (i - 1)) (en i) < 40000 ∧
            en (i - 1) < 1.7 * en i ∧ en i < 1.7 * en (i - 1)) then 0
        else ns_attack_mark a x i := by
    interval_cases i
    · exact vbr_periodicity_get1 en _
    · exact vbr_periodicity_get2 en _
    · exact vbr_periodicity_get3 en _
  unfold vbrpsy_attack_detection_attacks
  constructor
  · intro hsur
    rcases hslot with hz | he
    · exact absurd hz hsur
    · rw [he, hfix, hget] at hsur
      by_cases hr : (max (en (i - 1)) (en i) < 40000 ∧
          en (i - 1) < 1.7 * en i ∧ en i < 1.7 * en (i - 1))
      · rw [if_pos hr] at hsur
        exact absurd rfl hsur
      · rw [if_neg hr] at hsur
        exact ⟨hr, hsur⟩
  · intro hr
    have hz : attackGet (vbr_periodicity en (ns_attack_marks a x)) i = 0 := by
      rw [hget, if_pos hr]
    rcases hslot with h | h
    · exact h
    · rw [h, hfix, hz]

/-- C7: in both analyzers, an attack mark at position i = 1..3 survives
the pipeline only if some intensity of its sub-block triple exceeded the
attack threshold AND the 3-block energy profile is non-periodic in the
claim's sense (neighbour ratio at least 1.7, or larger neighbour energy
at least 40000); and an attack failing that periodicity test is always
cleared.  The positivity hypotheses on en_short are the source's own
asserts (psymodel.c:1262, 1265). -/
theorem attack_periodicity_filter (a : ℕ → ℚ) (x : ℚ) (en : ℕ → ℚ) (last : ℕ)
    (h0 : 0 < en 0) (h1 : 0 < en 1) (h2 : 0 < en 2) (h3 : 0 < en 3) :
    ∀ i, 1 ≤ i → i ≤ 3 →
      (attackGet (L3psycho_anal_ns_attacks a x en last) i ≠ 0 →
        (x < a (3 * i) ∨ x < a (3 * i + 1) ∨ x < a (3 * i + 2)) ∧ attack_cond en i) ∧
      (attackGet (vbrpsy_attack_detection_attacks a x en last) i ≠ 0 →
        (x < a (3 * i) ∨ x < a (3 * i + 1) ∨ x < a (3 * i + 2)) ∧ attack_cond en i) ∧
      (¬ attack_cond en i →
        attackGet (L3psycho_anal_ns_attacks a x en last) i = 0 ∧
        attackGet (vbrpsy_attack_detection_attacks a x en last) i = 0) := by
  intro i hi1 hi3
  have hp1 : 0 < en (i - 1) := by
    interval_cases i <;> assumption
  have hp2 : 0 < en i := by
    interval_cases i <;> assumption
  have hns := ns_pipeline_char a x en last i hi1 hi3
  have hvbr := vbr_pipeline_char a x en last i hi1 hi3
  have hiff := ns_ratio_lt_iff en i hp1 hp2
  refine ⟨?_, ?_, ?_⟩
  · intro hsur
    obtain ⟨hr, hm⟩ := hns.1 hsur
    refine ⟨ns_attack_mark_ne_zero a x i hm, ?_⟩
    rw [hiff] at hr
    rcases not_and_or.mp hr with h | h
    · exact Or.inl (not_lt.mp h)
    · exact Or.inr (Or.inl (not_lt.mp h))
  · intro hsur
    obtain ⟨hr, hm⟩ := hvbr.1 hsur
    refine ⟨ns_attack_mark_ne_zero a x i hm, ?_⟩
    unfold attack_cond
    by_cases hc1 : 1.7 * en i ≤ en (i - 1)
    · exact Or.inl hc1
    · by_cases hc2 : 1.7 * en (i - 1) ≤ en i
      · exact Or.inr (Or.inl hc2)
      · by_cases hc3 : (40000 : ℚ) ≤ max (en (i - 1)) (en i)
        · exact Or.inr (Or.inr hc3)
        · exact absurd ⟨not_le.mp hc3, not_le.mp hc1, not_le.mp hc2⟩ hr
  · intro hnc
    unfold attack_cond at hnc
    push_neg at hnc
    obtain ⟨hc1, hc2, hc3⟩ := hnc
    constructor
    · exact hns.2 (hiff.mpr ⟨hc1, hc2⟩)
    · exact hvbr.2 ⟨hc3, hc1, hc2⟩

/-- Witness for C7 at i = 1: unit energies (perfectly periodic profile)
and zero intensities, threshold 0 — the periodicity test fails, so the
mark is cleared in both analyzers. -/
theorem attack_periodicity_filter_witness :
    (0 : ℚ) < 1 ∧
    (¬ attack_cond (fun _ => 1) 1 →
      attackGet (L3psycho_anal_ns_attacks (fun _ => (0 : ℚ)) 0 (fun _ => 1) 0) 1 = 0 ∧
      attackGet (vbrpsy_attack_detection_attacks (fun _ => (0 : ℚ)) 0 (fun _ => 1) 0) 1 = 0) :=
  ⟨by norm_num,
   (attack_periodicity_filter (fun _ => 0) 0 (fun _ => 1) 0
     (by norm_num) (by norm_num) (by norm_num) (by norm_num)
     1 (by norm_num) (by norm_num)).2.2⟩

/-! ## C5: init_outer_loop and analog silence -/

theorem sqrt_abs_mul_sqrt_abs (x : ℝ) :
    Real.sqrt (|x| * Real.sqrt |x|) = |x| ^ ((3 : ℝ) / 4) := by
  have ha : (0 : ℝ) ≤ |x| := abs_nonneg x
  rcases eq_or_lt_of_le ha with hz | hp
  · rw [← hz]
    simp
  · have h1 : Real.sqrt |x| = |x| ^ ((1 : ℝ) / 2) := Real.sqrt_eq_rpow |x|
    have h2 : |x| * Real.sqrt |x| = |x| ^ ((3 : ℝ) / 2) := by
      rw [h1]
      nth_rewrite 1 [← Real.rpow_one |x|]
      rw [← Real.rpow_add hp]
      norm_num
    rw [h2, Real.sqrt_eq_rpow, ← Real.rpow_mul ha]
    norm_num

/-- C5: init_outer_loop computes xrpow[i] = |xr[i]|^0.75 (the source's
sqrt(|x| * sqrt |x|)); it reports analog silence (returns 0) exactly when
every coefficient satisfies |xr[i]| <= 10^-20; and in that case
iteration_loop skips the granule and zeroes all 576 quantized
coefficients. -/
theorem init_outer_loop_spec :
    (∀ xr : List ℝ, init_outer_loop_xrpow xr = xr.map (fun x => |x| ^ ((3 : ℝ) / 4))) ∧
    (∀ xr : List ℚ, init_outer_loop_ret xr = false ↔ ∀ x ∈ xr, |x| ≤ 1 / 10 ^ 20) ∧
    (∀ (encode : List ℚ → List ℤ) (xr : List ℚ), init_outer_loop_ret xr = false →
      iteration_loop_l3enc encode xr = List.replicate 576 0) := by
  refine ⟨?_, ?_, ?_⟩
  · intro xr
    unfold init_outer_loop_xrpow
    exact List.map_congr_left (fun x _ => sqrt_abs_mul_sqrt_abs x)
  · intro xr
    unfold init_outer_loop_ret init_outer_loop_o
    rw [decide_eq_false_iff_not, not_lt, Nat.le_zero, List.countP_eq_zero]
    constructor
    · intro h x hx
      have := h x hx
      simp only [decide_eq_true_eq] at this
      linarith [not_lt.mp this]
    · intro h x hx
      simp only [decide_eq_true_eq]
      exact not_lt.mpr (h x hx)
  · intro encode xr h
    unfold iteration_loop_l3enc
    rw [h]
    simp

/-- Witness for C5: a granule whose only coefficient is 10^-21 is analog
silence and produces 576 zeros. -/
theorem init_outer_loop_spec_witness :
    iteration_loop_l3enc (fun _ => []) [1 / 10 ^ 21] = List.replicate 576 0 :=
  init_outer_loop_spec.2.2 (fun _ => []) [1 / 10 ^ 21] (by
    have h : init_outer_loop_ret [1 / 10 ^ 21] = false ↔
        ∀ x ∈ [(1 : ℚ) / 10 ^ 21], |x| ≤ 1 / 10 ^ 20 := init_outer_loop_spec.2.1 _
    rw [h]
    intro x hx
    simp only [List.mem_singleton] at hx
    rw [hx]
    rw [abs_of_nonneg (by norm_num)]
    norm_num)

/-! ## C6: inc_subblock_gain lets subblock_gain reach 8 -/

/-- C6 (code evaluated at the failing input): with all three window gains
at 7 and a window-0 scalefactor at 16, `inc_subblock_gain` succeeds
(returns 0) and leaves subblock_gain[0] = 8, exceeding the 3-bit maximum
7 that the spec (and ISO side info field) require.  The guard at
quantize.c:668 reads `> 7` where only `>= 7` would keep the invariant. -/
theorem inc_subblock_gain_exceeds_7 :
    ((inc_subblock_gain (fun _ => 0) (fun _ => 0) 0 0 sbgFailingState).2.subblockGain 0 = 8) ∧
    ¬ ((8 : ℤ) ≤ 7) ∧
    (inc_subblock_gain (fun _ => 0) (fun _ => 0) 0 0 sbgFailingState).1 = false := by
  refine ⟨?_, by norm_num, ?_⟩ <;>
    simp [inc_subblock_gain, inc_subblock_gain_window, inc_subblock_gain_sfbs,
      maxScalefac, sbgFailingState, List.range']

/-! ## C8: the psymodel_init sentinels -/

/-- Counterexample to C8 as stated: psymodel_init sets nb_s1 (and nb_s2)
to 1.0, not to the loud sentinel 1e20 (psymodel.c:2806). -/
theorem psymodel_init_nb_s1_not_loud :
    psymodel_init_state.nb_s1 0 0 = 1 ∧ ¬ (psymodel_init_state.nb_s1 0 0 = 10 ^ 20) := by
  constructor
  · rfl
  · norm_num [psymodel_init_state]

/-- C8 (amended): psymodel_init sets the long-block pre-echo memories
nb_l1/nb_l2 and the saved en/thm tables (long and short) of every channel
and band to the loud sentinel 1e20 — disabling long-block pre-echo
control and PE on the first granule — but sets the short-block memories
nb_s1/nb_s2 to 1.0 (and last_en_subshort to 10, blocktype_old to
NORM). -/
theorem psymodel_init_sentinels :
    ∀ i j sbl sbs w, i < 4 → j < 64 → sbl < 22 → sbs < 13 → w < 3 →
      psymodel_init_state.nb_l1 i j = 10 ^ 20 ∧
      psymodel_init_state.nb_l2 i j = 10 ^ 20 ∧
      psymodel_init_state.enL i sbl = 10 ^ 20 ∧
      psymodel_init_state.thmL i sbl = 10 ^ 20 ∧
      psymodel_init_state.enS i sbs w = 10 ^ 20 ∧
      psymodel_init_state.thmS i sbs w = 10 ^ 20 ∧
      psymodel_init_state.nb_s1 i j = 1 ∧
      psymodel_init_state.nb_s2 i j = 1 ∧
      psymodel_init_state.lastEnSubshort i w = 10 ∧
      psymodel_init_state.blocktypeOld i = BlockType.NORM := by
  intro i j sbl sbs w _ _ _ _ _
  exact ⟨rfl, rfl, rfl, rfl, rfl, rfl, rfl, rfl, rfl, rfl⟩

/-- Witness for C8 at channel 0, band 0, window 0. -/
theorem psymodel_init_sentinels_witness :
    psymodel_init_state.nb_l1 0 0 = 10 ^ 20 ∧
    psymodel_init_state.nb_l2 0 0 = 10 ^ 20 ∧
    psymodel_init_state.enL 0 0 = 10 ^ 20 ∧
    psymodel_init_state.thmL 0 0 = 10 ^ 20 ∧
    psymodel_init_state.enS 0 0 0 = 10 ^ 20 ∧
    psymodel_init_state.thmS 0 0 0 = 10 ^ 20 ∧
    psymodel_init_state.nb_s1 0 0 = 1 ∧
    psymodel_init_state.nb_s2 0 0 = 1 ∧
    psymodel_init_state.lastEnSubshort 0 0 = 10 ∧
    psymodel_init_state.blocktypeOld 0 = BlockType.NORM :=
  psymodel_init_sentinels 0 0 0 0 0 (by norm_num) (by norm_num) (by norm_num)
    (by norm_num) (by norm_num)

/-! ## C9: encode/close guards and the closed-handle behavior -/

/-- Counterexample to C9 as stated: after a successful `lame_close` the
handle's internal_flags pointer is NULL, so a further encode or close
call dereferences NULL (modelled as the error value) instead of failing
with -3. -/
theorem lame_close_then_call_no_minus3 :
    lame_close (lame_init_params lame_init_handle)
      = Except.ok (0, ⟨none, false⟩) ∧
    lame_encode_buffer (fun g => (0, g)) true ⟨none, false⟩ 5
      = Except.error PtrError.nullDeref ∧
    lame_close ⟨none, false⟩ = Except.error PtrError.nullDeref ∧
    lame_encode_buffer (fun g => (0, g)) true ⟨none, false⟩ 5
      ≠ Except.ok (-3, ⟨none, false⟩) := by
  refine ⟨?_, rfl, rfl, ?_⟩
  · simp [lame_close, lame_init_params, lame_init_handle, lame_encode_buffer]
  · intro h
    simp [lame_encode_buffer] at h

/-- C9 (amended): the encode-buffer family returns -3 when the (still
allocated) internal state carries the wrong class id, 0 with the state
unchanged when nsamples = 0, and -2 when buffer allocation fails;
lame_close on a valid session returns 0 and frees/nulls the internal
state; any further encode or close call on the handle dereferences the
NULL internal_flags pointer (undefined behavior in C, the error value
here) rather than returning -3. -/
theorem lame_api_guards :
    (∀ (body : LameGlobalFlags → ℤ × LameGlobalFlags) (allocOk : Bool)
        (gfc : LameInternalFlags) (b : Bool) (n : ℕ), gfc.classID ≠ LAME_ID →
      lame_encode_buffer body allocOk ⟨some gfc, b⟩ n = Except.ok (-3, ⟨some gfc, b⟩)) ∧
    (∀ (body : LameGlobalFlags → ℤ × LameGlobalFlags) (allocOk : Bool)
        (gfc : LameInternalFlags) (b : Bool), gfc.classID = LAME_ID →
      lame_encode_buffer body allocOk ⟨some gfc, b⟩ 0 = Except.ok (0, ⟨some gfc, b⟩)) ∧
    (∀ (body : LameGlobalFlags → ℤ × LameGlobalFlags)
        (gfc : LameInternalFlags) (b : Bool) (n : ℕ), gfc.classID = LAME_ID → n ≠ 0 →
      lame_encode_buffer body false ⟨some gfc, b⟩ n = Except.ok (-2, ⟨some gfc, b⟩)) ∧
    (∀ (gfc : LameInternalFlags) (b : Bool), gfc.classID = LAME_ID →
      lame_close ⟨some gfc, b⟩ = Except.ok (0, ⟨none, false⟩)) ∧
    (∀ (body : LameGlobalFlags → ℤ × LameGlobalFlags) (allocOk : Bool) (n : ℕ),
      lame_encode_buffer body allocOk ⟨none, false⟩ n = Except.error PtrError.nullDeref) ∧
    lame_close ⟨none, false⟩ = Except.error PtrError.nullDeref := by
  refine ⟨?_, ?_, ?_, ?_, ?_, rfl⟩
  · intro body allocOk gfc b n h
    simp [lame_encode_buffer, h]
  · intro body allocOk gfc b h
    simp [lame_encode_buffer, h]
  · intro body gfc b n h hn
    simp [lame_encode_buffer, h, hn]
  · intro gfc b h
    simp [lame_close, h]
  · intro body allocOk n
    rfl

/-- Witness for C9: an initialized-but-not-configured handle (Class_ID
still 0) gets -3 from encode; a configured one gets 0 from close. -/
theorem lame_api_guards_witness :
    lame_encode_buffer (fun g => (0, g)) true ⟨some ⟨0⟩, true⟩ 5
      = Except.ok (-3, ⟨some ⟨0⟩, true⟩) ∧
    lame_close ⟨some ⟨LAME_ID⟩, true⟩ = Except.ok (0, ⟨none, false⟩) :=
  ⟨lame_api_guards.1 (fun g => (0, g)) true ⟨0⟩ true 5 (by decide),
   lame_api_guards.2.2.2.1 ⟨LAME_ID⟩ true rfl⟩

end Lame
